import Mathlib

/-!
Shallow embedding of `pkg/mproc/netdev.go`: the counter-file reader
(`readNetDev`) and the sampler loop (`calculate`).

Modelling conventions:
- Go strings are embedded as `List Char`; `strings.Fields`, `strings.Trim`
  and `strings.Contains` are embedded as executable functions below.
- Go `int64` arithmetic is embedded over `Int` (no claim here depends on
  64-bit wraparound); `int64` division truncates toward zero and is
  embedded as `Int.tdiv`.
- A Go runtime panic (slice index out of range, integer division by zero)
  is embedded as the `none` result of an `Option`-valued function.
- The file handle, the ticker and the callback are effectful collaborators:
  each tick's read outcome enters the sampler model as an input
  (`Option Snapshot`, `none` embedding a failed open/scan), and callback
  invocations leave it as outputs (`Option TsCallData` per tick).
-/

/-- Interface names (Go strings) as character lists. -/
abbrev IfName := List Char

/-- The white-space test used by Go's `strings.Fields` (ASCII part of
`unicode.IsSpace`). -/
def isGoSpace (c : Char) : Bool :=
  c == ' ' || c == '\t' || c == '\n' || c == '\x0b' || c == '\x0c' || c == '\r'

/-- Accumulator-passing core of `strings.Fields`. -/
def goFieldsAux : List Char → List Char → List (List Char)
  | [], acc => if acc.isEmpty then [] else [acc.reverse]
  | c :: cs, acc =>
    if isGoSpace c then
      if acc.isEmpty then goFieldsAux cs [] else acc.reverse :: goFieldsAux cs []
    else
      goFieldsAux cs (c :: acc)

/-- Embedding of `strings.Fields`: split around runs of white space. -/
def goFields (l : List Char) : List (List Char) :=
  goFieldsAux l []

/-- Embedding of `strings.Trim(s, ":")`: remove leading and trailing `:`. -/
def goTrimColons (l : List Char) : List Char :=
  ((l.dropWhile (fun c => c == ':')).reverse.dropWhile (fun c => c == ':')).reverse

/-- Digit-accumulating parse; fails on the first non-digit character. -/
def goDigitsAux : List Char → Nat → Option Nat
  | [], acc => some acc
  | c :: cs, acc =>
    if c.isDigit then goDigitsAux cs (acc * 10 + (c.toNat - 48)) else none

/-- Parse a non-empty all-digit token; `none` otherwise. -/
def goDigits : List Char → Option Nat
  | [] => none
  | l => goDigitsAux l 0

/-- Modelled from the spec: the string-to-`int64` helper `mto.Int64` lives in
the external module `250300-go-mod-pkgs`, not in this repository.  Per the
spec's forgiving-parse policy, non-numeric or otherwise malformed counter
fields are coerced to zero rather than failing the read; an optional sign
followed by decimal digits parses to its value. -/
def goInt64 (l : List Char) : Int :=
  match l with
  | '-' :: rest =>
    match goDigits rest with
    | some n => -(n : Int)
    | none => 0
  | '+' :: rest =>
    match goDigits rest with
    | some n => (n : Int)
    | none => 0
  | _ =>
    match goDigits l with
    | some n => (n : Int)
    | none => 0

/-- `tsNetDevInfo` from `netdev.go`: one direction's counters. -/
structure tsNetDevInfo where
  Bytes : Int
  Packets : Int
  Errs : Int
  Drop : Int
  FIFO : Int
  Frame : Int
  Compressed : Int
  Multicast : Int
  Colls : Int
  Carrier : Int
deriving DecidableEq

/-- `tsNetDev` from `netdev.go`: one interface's parsed counters. -/
structure tsNetDev where
  Name : IfName
  Transmit : tsNetDevInfo
  Receive : tsNetDevInfo
deriving DecidableEq

/-- `TsCallData` from `netdev.go`: the record handed to the callback.
`Interval` is the duration in nanoseconds (`time.Duration` is an `int64`
nanosecond count). -/
structure TsCallData where
  BytesTx : Int
  BytesRx : Int
  Interval : Int
  Interfaces : Option (List IfName)
  Name : IfName
deriving DecidableEq

/-- The configuration fields of `netDevArgs` that the pure model needs.
`Interfaces` embeds the Go slice: `none` for a nil slice, `some l`
otherwise (Go distinguishes nil from a present empty slice).  `Path` and
`Callback` are effectful and live outside the pure model. -/
structure netDevArgs where
  Name : IfName
  Interval : Int
  Interfaces : Option (List IfName)
deriving DecidableEq

/-- The map built by `readNetDev`, as an association list with unique keys
(every Go map update goes through `insertSnap`). -/
abbrev Snapshot := List (IfName × tsNetDev)

/-- The key set of a `Snapshot`. -/
def snapKeys (s : Snapshot) : List IfName :=
  s.map Prod.fst

/-- Go map assignment `items[ifname] = iface`: replace the entry when the
key is present, append it otherwise. -/
def insertSnap : Snapshot → IfName → tsNetDev → Snapshot
  | [], k, v => [(k, v)]
  | (k₀, v₀) :: rest, k, v =>
    if k₀ = k then (k, v) :: rest else (k₀, v₀) :: insertSnap rest k v

/-- The nil-guarded allow-list test from `readNetDev`:
`Interfaces != nil && !slices.Contains(Interfaces, ifname)`. -/
def allowSkip (ifs : Option (List IfName)) (ifname : IfName) : Bool :=
  match ifs with
  | none => false
  | some l => !(decide (ifname ∈ l))

/-- One iteration of `readNetDev`'s scan loop on a single line.
`none` embeds a panic, `some none` a skipped line, and `some (some (k, v))`
a parsed entry.  The source reads `fields[1]` through `fields[16]` (the
index sequence of `mfunc.NewCounter(1)`), each access panicking when the
line has too few fields; the panic is embedded as the failing side of one
length guard covering all sixteen accesses.  `fields[i]` is `rest[i - 1]`
here. -/
def readNetDevLine (ifs : Option (List IfName)) (line : List Char) :
    Option (Option (IfName × tsNetDev)) :=
  if ':' ∈ line then
    match goFields line with
    | [] => none
    | f₀ :: rest =>
      let ifname := goTrimColons f₀
      if allowSkip ifs ifname then
        some none
      else if h : 16 ≤ rest.length then
        some (some (ifname,
          { Name := ifname
            Transmit :=
              { Bytes := goInt64 rest[8], Packets := goInt64 rest[9],
                Errs := goInt64 rest[10], Drop := goInt64 rest[11],
                FIFO := goInt64 rest[12], Frame := 0,
                Compressed := goInt64 rest[15], Multicast := 0,
                Colls := goInt64 rest[13], Carrier := goInt64 rest[14] }
            Receive :=
              { Bytes := goInt64 rest[0], Packets := goInt64 rest[1],
                Errs := goInt64 rest[2], Drop := goInt64 rest[3],
                FIFO := goInt64 rest[4], Frame := goInt64 rest[5],
                Compressed := goInt64 rest[6], Multicast := goInt64 rest[7],
                Colls := 0, Carrier := 0 } }))
      else
        none
  else
    some none

/-- The scan loop of `readNetDev`, threading the `items` map. -/
def readNetDevAux (ifs : Option (List IfName)) :
    List (List Char) → Snapshot → Option Snapshot
  | [], items => some items
  | l :: ls, items =>
    match readNetDevLine ifs l with
    | none => none
    | some none => readNetDevAux ifs ls items
    | some (some (k, v)) => readNetDevAux ifs ls (insertSnap items k v)

/-- `readNetDev` on the text of a successfully opened and scanned source
(the open-failure and mid-scan-error paths enter the sampler model as the
`none` tick input instead).  `none` embeds a panic while parsing. -/
def readNetDev (ifs : Option (List IfName)) (lines : List (List Char)) :
    Option Snapshot :=
  readNetDevAux ifs lines []

/-- The interface name a line would be keyed under: `strings.Trim` of the
first field. -/
def nameOf (l : List Char) : IfName :=
  goTrimColons ((goFields l).headD [])

/-- The sampler's per-run mutable state: `lastRx`, `lastTx`,
`firstIteration` from `calculate`. -/
structure AggState where
  lastRx : Int
  lastTx : Int
  firstIteration : Bool
deriving DecidableEq

/-- The state at the top of `calculate`: zero totals, first iteration. -/
def initAggState : AggState :=
  { lastRx := 0, lastTx := 0, firstIteration := true }

/-- Sum of `Receive.Bytes` over the snapshot's entries. -/
def sumRx (stats : Snapshot) : Int :=
  (stats.map (fun kv => kv.2.Receive.Bytes)).sum

/-- Sum of `Transmit.Bytes` over the snapshot's entries. -/
def sumTx (stats : Snapshot) : Int :=
  (stats.map (fun kv => kv.2.Transmit.Bytes)).sum

/-- `int64(Interval.Seconds())` for an interval of `ns` nanoseconds:
`Seconds` divides by `1e9` in `float64` and the conversion truncates toward
zero; for every magnitude considered here the composite equals exact
truncated integer division. -/
def intervalSeconds (ns : Int) : Int :=
  ns.tdiv 1000000000

/-- One `ticker.C` iteration of `calculate`'s loop.  The input is the
outcome of `readNetDev` on the current source contents (`none` for a
failed read).  The result is `none` when Go would panic (integer division
by zero for a sub-second interval), otherwise the successor state and the
callback's argument if the callback is invoked this tick. -/
def calculateStep (args : netDevArgs) (st : AggState) (read : Option Snapshot) :
    Option (AggState × Option TsCallData) :=
  match read with
  | none => some (st, none)
  | some stats =>
    let totalRx := sumRx stats
    let totalTx := sumTx stats
    if st.firstIteration then
      some ({ lastRx := totalRx, lastTx := totalTx, firstIteration := false }, none)
    else
      let secs := intervalSeconds args.Interval
      if secs = 0 then
        none
      else
        let bytesRx := (totalRx - st.lastRx).tdiv secs
        let bytesTx := (totalTx - st.lastTx).tdiv secs
        some ({ lastRx := totalRx, lastTx := totalTx, firstIteration := false },
          some { BytesTx := if bytesTx < 0 then 0 else bytesTx,
                 BytesRx := if bytesRx < 0 then 0 else bytesRx,
                 Interval := args.Interval,
                 Interfaces := args.Interfaces,
                 Name := args.Name })

/-- `calculate`'s loop over a finite prefix of tick inputs, collecting per
tick the callback argument (or `none` when no callback runs).  A panic
(`calculateStep` returning `none`) ends the run: the goroutine's `recover`
terminates the loop. -/
def calculate (args : netDevArgs) : AggState → List (Option Snapshot) → List (Option TsCallData)
  | _, [] => []
  | st, r :: rs =>
    match calculateStep args st r with
    | none => []
    | some (st', out) => out :: calculate args st' rs

/-! ## Fixtures used by concrete witnesses -/

/-- An all-zero counter record (the Go zero value of `tsNetDevInfo`). -/
def zeroInfo : tsNetDevInfo :=
  { Bytes := 0, Packets := 0, Errs := 0, Drop := 0, FIFO := 0,
    Frame := 0, Compressed := 0, Multicast := 0, Colls := 0, Carrier := 0 }

/-- A one-interface snapshot whose receive and transmit byte totals are both
`b`. -/
def byteSnap (b : Int) : Snapshot :=
  [(['e', 't', 'h', '0'],
    { Name := ['e', 't', 'h', '0'],
      Transmit := { zeroInfo with Bytes := b },
      Receive := { zeroInfo with Bytes := b } })]

/-- A sampler configuration with a 2-second interval and no allow-list. -/
def argsTwoSec : netDevArgs :=
  { Name := ['a', 'l', 'l'], Interval := 2000000000, Interfaces := none }

/-! ## Helper lemmas for the sampler -/

/-- The negative-clamp `if` is a `max` with zero. -/
theorem ifNegClamp_eq_max (x : Int) : (if x < 0 then 0 else x) = max 0 x := by
  rcases lt_or_le x 0 with h | h
  · rw [if_pos h, max_eq_left h.le]
  · rw [if_neg (not_lt.mpr h), max_eq_right h]

/-- Truncating division of a nonpositive dividend by a nonnegative divisor
is nonpositive. -/
theorem tdiv_nonpos_of_nonpos_of_nonneg {a b : Int} (ha : a ≤ 0) (hb : 0 ≤ b) :
    a.tdiv b ≤ 0 := by
  have h : 0 ≤ (-a).tdiv b := Int.tdiv_nonneg (by omega) hb
  rw [Int.neg_tdiv] at h
  omega

/-- Normal form of a non-bootstrap tick with a successful read and a
nonzero whole-second divisor. -/
theorem calculateStep_not_first (args : netDevArgs) (st : AggState) (stats : Snapshot)
    (hfirst : st.firstIteration = false)
    (hsecs : intervalSeconds args.Interval ≠ 0) :
    calculateStep args st (some stats) =
      some ({ lastRx := sumRx stats, lastTx := sumTx stats, firstIteration := false },
        some { BytesTx :=
                 if (sumTx stats - st.lastTx).tdiv (intervalSeconds args.Interval) < 0 then 0
                 else (sumTx stats - st.lastTx).tdiv (intervalSeconds args.Interval),
               BytesRx :=
                 if (sumRx stats - st.lastRx).tdiv (intervalSeconds args.Interval) < 0 then 0
                 else (sumRx stats - st.lastRx).tdiv (intervalSeconds args.Interval),
               Interval := args.Interval,
               Interfaces := args.Interfaces,
               Name := args.Name }) := by
  simp [calculateStep, hfirst, hsecs]

/-- A bootstrap tick with a successful read stores the summed totals and
invokes no callback. -/
theorem calculateStep_first (args : netDevArgs) (st : AggState) (stats : Snapshot)
    (hfirst : st.firstIteration = true) :
    calculateStep args st (some stats) =
      some ({ lastRx := sumRx stats, lastTx := sumTx stats, firstIteration := false }, none) := by
  simp [calculateStep, hfirst]

/-- C1: for every tick after the bootstrap tick whose read succeeds (and
whose whole-second divisor is nonzero), the emitted receive and transmit
rates are the byte deltas divided (truncating toward zero) by the
interval's whole seconds, clamped below at zero, and the totals become the
new previous totals. -/
theorem c1_delta_rate_formula (args : netDevArgs) (st : AggState) (stats : Snapshot)
    (hfirst : st.firstIteration = false)
    (hsecs : intervalSeconds args.Interval ≠ 0) :
    calculateStep args st (some stats) =
      some ({ lastRx := sumRx stats, lastTx := sumTx stats, firstIteration := false },
        some { BytesTx := max 0 ((sumTx stats - st.lastTx).tdiv (intervalSeconds args.Interval)),
               BytesRx := max 0 ((sumRx stats - st.lastRx).tdiv (intervalSeconds args.Interval)),
               Interval := args.Interval,
               Interfaces := args.Interfaces,
               Name := args.Name }) := by
  rw [calculateStep_not_first args st stats hfirst hsecs]
  simp only [ifNegClamp_eq_max]

/-- C1 witness: previous totals 1000, current totals 3000, 2-second
interval: the emitted rates are (3000 − 1000) / 2 = 1000 bytes/sec. -/
theorem c1_delta_rate_formula_witness :
    calculateStep argsTwoSec { lastRx := 1000, lastTx := 1000, firstIteration := false }
        (some (byteSnap 3000)) =
      some ({ lastRx := 3000, lastTx := 3000, firstIteration := false },
        some { BytesTx := 1000, BytesRx := 1000, Interval := 2000000000,
               Interfaces := none, Name := ['a', 'l', 'l'] }) :=
  (c1_delta_rate_formula argsTwoSec
    { lastRx := 1000, lastTx := 1000, firstIteration := false }
    (byteSnap 3000) rfl (by decide)).trans (by decide)

/-- C2: on a tick that invokes the callback, the emitted rates are never
negative, and when the current summed total for a direction is below the
previous total that direction's emitted rate is exactly 0 (the interval is
strictly positive, the constructor contract of the spec). -/
theorem c2_negative_delta_clamp (args : netDevArgs) (st : AggState) (stats : Snapshot)
    (st' : AggState) (d : TsCallData) (hpos : 0 < args.Interval)
    (h : calculateStep args st (some stats) = some (st', some d)) :
    0 ≤ d.BytesRx ∧ 0 ≤ d.BytesTx ∧
      (sumRx stats < st.lastRx → d.BytesRx = 0) ∧
      (sumTx stats < st.lastTx → d.BytesTx = 0) := by
  by_cases hfirst : st.firstIteration
  · rw [calculateStep_first args st stats hfirst] at h
    simp at h
  · rw [Bool.not_eq_true] at hfirst
    by_cases hsecs : intervalSeconds args.Interval = 0
    · simp [calculateStep, hfirst, hsecs] at h
    · rw [calculateStep_not_first args st stats hfirst hsecs] at h
      have hsec0 : 0 ≤ intervalSeconds args.Interval :=
        Int.tdiv_nonneg hpos.le (by norm_num)
      obtain ⟨-, rfl⟩ : st' = _ ∧ d = _ := by
        simpa [eq_comm] using h
      refine ⟨?_, ?_, ?_, ?_⟩
      · dsimp only; split <;> omega
      · dsimp only; split <;> omega
      · intro hlt
        have hnp : (sumRx stats - st.lastRx).tdiv (intervalSeconds args.Interval) ≤ 0 :=
          tdiv_nonpos_of_nonpos_of_nonneg (by omega) hsec0
        dsimp only; split <;> omega
      · intro hlt
        have hnp : (sumTx stats - st.lastTx).tdiv (intervalSeconds args.Interval) ≤ 0 :=
          tdiv_nonpos_of_nonpos_of_nonneg (by omega) hsec0
        dsimp only; split <;> omega

/-- C2 witness: previous totals 5, current totals 0 (counter reset) over a
2-second interval: both emitted rates are 0 and nonnegative. -/
theorem c2_negative_delta_clamp_witness :
    0 ≤ (0 : Int) ∧ 0 ≤ (0 : Int) ∧
      (sumRx [] < (5 : Int) → (0 : Int) = 0) ∧
      (sumTx [] < (5 : Int) → (0 : Int) = 0) := by
  have h := c2_negative_delta_clamp argsTwoSec
    { lastRx := 5, lastTx := 5, firstIteration := false } []
    { lastRx := 0, lastTx := 0, firstIteration := false }
    { BytesTx := 0, BytesRx := 0, Interval := 2000000000,
      Interfaces := none, Name := ['a', 'l', 'l'] }
    (by decide) (by decide)
  exact h

/-- C4: a tick whose read fails leaves the Aggregate State unchanged,
invokes no callback, and the loop proceeds to the remaining ticks. -/
theorem c4_read_failure_resilience (args : netDevArgs) (st : AggState)
    (rs : List (Option Snapshot)) :
    calculate args st (none :: rs) = none :: calculate args st rs := rfl

/-- From a state still in its first iteration, an emission at position `j`
of the run requires a strictly earlier successful read. -/
theorem calculate_emit_after_success (args : netDevArgs) :
    ∀ (inputs : List (Option Snapshot)) (st : AggState) (j : Nat) (d : TsCallData),
      st.firstIteration = true →
      (calculate args st inputs)[j]? = some (some d) →
      ∃ i, i < j ∧ ∃ stats, inputs[i]? = some (some stats) := by
  intro inputs
  induction inputs with
  | nil =>
    intro st j d _ h
    simp [calculate] at h
  | cons r rs ih =>
    intro st j d hfirst h
    cases r with
    | none =>
      have hc : calculate args st (none :: rs) = none :: calculate args st rs := rfl
      rw [hc] at h
      cases j with
      | zero => simp at h
      | succ j' =>
        rw [List.getElem?_cons_succ] at h
        obtain ⟨i, hij, stats, hi⟩ := ih st j' d hfirst h
        exact ⟨i + 1, by omega, stats, by simpa using hi⟩
    | some stats₀ =>
      have hc : calculate args st (some stats₀ :: rs) =
          none :: calculate args
            { lastRx := sumRx stats₀, lastTx := sumTx stats₀, firstIteration := false } rs := by
        simp [calculate, calculateStep_first args st stats₀ hfirst]
      rw [hc] at h
      cases j with
      | zero => simp at h
      | succ j' => exact ⟨0, Nat.succ_pos _, stats₀, by simp⟩

/-- C3: in a run started from the initial Aggregate State, a Result at
position `j` implies a successful read strictly before `j`; in particular
the first successful tick stores the baseline without emitting. -/
theorem c3_bootstrap_suppression (args : netDevArgs) (inputs : List (Option Snapshot))
    (j : Nat) (d : TsCallData)
    (h : (calculate args initAggState inputs)[j]? = some (some d)) :
    ∃ i, i < j ∧ ∃ stats, inputs[i]? = some (some stats) :=
  calculate_emit_after_success args inputs initAggState j d rfl h

/-- C3 witness: two successful empty reads at a 2-second interval; the
emission at position 1 forces a successful read before it. -/
theorem c3_bootstrap_suppression_witness :
    ∃ i, i < 1 ∧ ∃ stats, ([some ([] : Snapshot), some []])[i]? = some (some stats) :=
  c3_bootstrap_suppression argsTwoSec [some [], some []] 1
    { BytesTx := 0, BytesRx := 0, Interval := 2000000000,
      Interfaces := none, Name := ['a', 'l', 'l'] }
    (by decide)

/-- C10: a strictly positive interval shorter than one second has
whole-second divisor `int64(Interval.Seconds()) = 0`, an interval of at
least one second has a nonzero divisor, and on a post-bootstrap successful
tick the sub-second divisor makes the rate division panic (embedded as
`none`): the divisor-nonzero side condition needs `interval ≥ 1s`, not just
positivity. -/
theorem c10_subsecond_divisor_zero (ns ms : Int) (args : netDevArgs) (st : AggState)
    (stats : Snapshot)
    (h1 : 0 < ns) (h2 : ns < 1000000000) (h3 : 1000000000 ≤ ms)
    (hargs : args.Interval = ns) (hfirst : st.firstIteration = false) :
    intervalSeconds ns = 0 ∧ intervalSeconds ms ≠ 0 ∧
      calculateStep args st (some stats) = none := by
  have hz : intervalSeconds ns = 0 := by
    obtain ⟨n, rfl⟩ := Int.eq_ofNat_of_zero_le h1.le
    have hn : n < 1000000000 := by exact_mod_cast h2
    show (Int.ofNat (n / 1000000000)) = 0
    have : n / 1000000000 = 0 := (Nat.div_eq_zero_iff (by norm_num)).mpr hn
    rw [this]
    rfl
  have hnz : intervalSeconds ms ≠ 0 := by
    have h0 : (0 : Int) ≤ ms := le_trans (by norm_num) h3
    obtain ⟨m, rfl⟩ := Int.eq_ofNat_of_zero_le h0
    have hm : 1000000000 ≤ m := by exact_mod_cast h3
    have h1m : 1 ≤ m / 1000000000 := (Nat.one_le_div_iff (by norm_num)).mpr hm
    show ((m / 1000000000 : Nat) : Int) ≠ 0
    omega
  refine ⟨hz, hnz, ?_⟩
  simp [calculateStep, hfirst, hargs, hz]

/-- C10 witness: a 0.5-second interval has divisor 0 (a 2-second one does
not), and the second successful tick at that interval panics. -/
theorem c10_subsecond_divisor_zero_witness :
    intervalSeconds 500000000 = 0 ∧ intervalSeconds 2000000000 ≠ 0 ∧
      calculateStep { Name := ['a', 'l', 'l'], Interval := 500000000, Interfaces := none }
        { lastRx := 0, lastTx := 0, firstIteration := false } (some []) = none :=
  c10_subsecond_divisor_zero 500000000 2000000000
    { Name := ['a', 'l', 'l'], Interval := 500000000, Interfaces := none }
    { lastRx := 0, lastTx := 0, firstIteration := false } []
    (by decide) (by decide) (by decide) rfl rfl

/-! ## Helper lemmas for the counter reader -/

theorem snapKeys_nil : snapKeys [] = [] := rfl

theorem snapKeys_cons (a : IfName) (b : tsNetDev) (s : Snapshot) :
    snapKeys ((a, b) :: s) = a :: snapKeys s := rfl

/-- A nonempty accumulator guarantees `goFieldsAux` returns a field. -/
theorem goFieldsAux_ne_nil : ∀ (l acc : List Char), acc ≠ [] → goFieldsAux l acc ≠ [] := by
  intro l
  induction l with
  | nil =>
    intro acc ha
    have hne : acc.isEmpty = false := by
      cases acc with
      | nil => exact absurd rfl ha
      | cons a as => rfl
    simp [goFieldsAux, hne]
  | cons c cs ih =>
    intro acc ha
    have hne : acc.isEmpty = false := by
      cases acc with
      | nil => exact absurd rfl ha
      | cons a as => rfl
    by_cases hs : isGoSpace c
    · simp [goFieldsAux, hs, hne]
    · have := ih (c :: acc) (by simp)
      simpa [goFieldsAux, hs] using this

/-- A line containing the delimiter splits into at least one field. -/
theorem goFieldsAux_ne_nil_of_colon : ∀ (l acc : List Char), ':' ∈ l → goFieldsAux l acc ≠ [] := by
  intro l
  induction l with
  | nil =>
    intro acc h
    simp at h
  | cons c cs ih =>
    intro acc hc
    by_cases hs : isGoSpace c
    · have hcs : ':' ∈ cs := by
        rcases List.mem_cons.mp hc with h | h
        · exfalso
          rw [← h] at hs
          exact absurd hs (by decide)
        · exact h
      by_cases he : acc.isEmpty
      · simpa [goFieldsAux, hs, he] using ih [] hcs
      · rw [Bool.not_eq_true] at he
        simp [goFieldsAux, hs, he]
    · have := goFieldsAux_ne_nil cs (c :: acc) (by simp)
      simpa [goFieldsAux, hs] using this

theorem goFields_ne_nil_of_colon (l : List Char) (hc : ':' ∈ l) : goFields l ≠ [] :=
  goFieldsAux_ne_nil_of_colon l [] hc

/-- Key membership after a Go map assignment. -/
theorem snapKeys_insertSnap (s : Snapshot) (k : IfName) (v : tsNetDev) (k' : IfName) :
    k' ∈ snapKeys (insertSnap s k v) ↔ k' = k ∨ k' ∈ snapKeys s := by
  induction s with
  | nil => simp [insertSnap, snapKeys_cons, snapKeys_nil]
  | cons kv rest ih =>
    obtain ⟨k₀, v₀⟩ := kv
    by_cases hk : k₀ = k
    · simp only [insertSnap]
      rw [if_pos hk]
      subst hk
      simp only [snapKeys_cons, List.mem_cons]
      tauto
    · simp only [insertSnap]
      rw [if_neg hk]
      simp only [snapKeys_cons, List.mem_cons]
      rw [ih]
      tauto

/-- A read that returns a snapshot panicked on none of its lines. -/
theorem readNetDevAux_line_ok (ifs : Option (List IfName)) :
    ∀ (ls : List (List Char)) (acc m : Snapshot),
      readNetDevAux ifs ls acc = some m → ∀ l ∈ ls, readNetDevLine ifs l ≠ none := by
  intro ls
  induction ls with
  | nil =>
    intro acc m _ l hl
    simp at hl
  | cons l₀ ls ih =>
    intro acc m h l hl
    cases hline : readNetDevLine ifs l₀ with
    | none =>
      simp only [readNetDevAux, hline] at h
      exact Option.noConfusion h
    | some o =>
      rcases List.mem_cons.mp hl with rfl | hl'
      · rw [hline]
        simp
      · cases o with
        | none =>
          simp only [readNetDevAux, hline] at h
          exact ih acc m h l hl'
        | some kv =>
          obtain ⟨k₁, v₁⟩ := kv
          simp only [readNetDevAux, hline] at h
          exact ih (insertSnap acc k₁ v₁) m h l hl'

/-- The keys of a successful read: those of the accumulator plus the keys
produced by some line of the input. -/
theorem readNetDevAux_keys (ifs : Option (List IfName)) :
    ∀ (ls : List (List Char)) (acc m : Snapshot) (k : IfName),
      readNetDevAux ifs ls acc = some m →
      (k ∈ snapKeys m ↔
        k ∈ snapKeys acc ∨ ∃ l ∈ ls, ∃ v, readNetDevLine ifs l = some (some (k, v))) := by
  intro ls
  induction ls with
  | nil =>
    intro acc m k h
    obtain rfl : acc = m := by simpa [readNetDevAux] using h
    simp
  | cons l₀ ls ih =>
    intro acc m k h
    cases hline : readNetDevLine ifs l₀ with
    | none =>
      simp only [readNetDevAux, hline] at h
      exact Option.noConfusion h
    | some o =>
      cases o with
      | none =>
        simp only [readNetDevAux, hline] at h
        rw [ih acc m k h, List.exists_mem_cons_iff]
        simp [hline]
      | some kv =>
        obtain ⟨k₁, v₁⟩ := kv
        simp only [readNetDevAux, hline] at h
        rw [ih (insertSnap acc k₁ v₁) m k h, snapKeys_insertSnap, List.exists_mem_cons_iff]
        constructor
        · rintro (⟨rfl | hacc⟩ | ⟨l, hl, v, hv⟩)
          · exact Or.inr (Or.inl ⟨v₁, by rw [hline]⟩)
          · exact Or.inl hacc
          · exact Or.inr (Or.inr ⟨l, hl, v, hv⟩)
        · rintro (hacc | ⟨v, hv⟩ | ⟨l, hl, v, hv⟩)
          · exact Or.inl (Or.inr hacc)
          · rw [hline] at hv
            obtain ⟨hk, -⟩ : k₁ = k ∧ v₁ = v := by simpa using hv
            exact Or.inl (Or.inl hk.symm)
          · exact Or.inr ⟨l, hl, v, hv⟩

/-- A non-panicking line yields an entry keyed `k` exactly when it is
eligible (contains the delimiter), is keyed under `k`, and passes the
allow-list. -/
theorem readNetDevLine_entry_iff (ifs : Option (List IfName)) (l : List Char) (k : IfName)
    (hok : readNetDevLine ifs l ≠ none) :
    (∃ v, readNetDevLine ifs l = some (some (k, v))) ↔
      (':' ∈ l ∧ nameOf l = k ∧ allowSkip ifs k = false) := by
  by_cases hc : ':' ∈ l
  · cases hf : goFields l with
    | nil => exact absurd hf (goFields_ne_nil_of_colon l hc)
    | cons f₀ rest =>
      have hname : nameOf l = goTrimColons f₀ := by
        simp [nameOf, hf]
      by_cases hskip : allowSkip ifs (goTrimColons f₀)
      · have hval : readNetDevLine ifs l = some none := by
          simp [readNetDevLine, hc, hf, hskip]
        constructor
        · rintro ⟨v, hv⟩
          rw [hval] at hv
          simp at hv
        · rintro ⟨-, hk, hs⟩
          rw [← hk, hname] at hs
          rw [hskip] at hs
          simp at hs
      · rw [Bool.not_eq_true] at hskip
        by_cases h16 : 16 ≤ rest.length
        · have hval : ∃ w, readNetDevLine ifs l = some (some (goTrimColons f₀, w)) := by
            simp only [readNetDevLine, if_pos hc, hf, hskip, Bool.false_eq_true, if_false,
              dif_pos h16]
            exact ⟨_, rfl⟩
          obtain ⟨w, hw⟩ := hval
          constructor
          · rintro ⟨v, hv⟩
            rw [hw] at hv
            obtain ⟨hk, -⟩ : goTrimColons f₀ = k ∧ w = v := by simpa using hv
            refine ⟨hc, hname.trans hk, ?_⟩
            rw [← hk]
            exact hskip
          · rintro ⟨-, hk, -⟩
            refine ⟨w, ?_⟩
            rw [hw, hname.symm.trans hk]
        · have hval : readNetDevLine ifs l = none := by
            simp only [readNetDevLine, if_pos hc, hf, hskip, Bool.false_eq_true, if_false,
              dif_neg h16]
          exact absurd hval hok
  · have hval : readNetDevLine ifs l = some none := by
      simp [readNetDevLine, hc]
    constructor
    · rintro ⟨v, hv⟩
      rw [hval] at hv
      simp at hv
    · rintro ⟨hc', -, -⟩
      exact absurd hc' hc

/-- The read succeeds whenever every eligible allow-listed line has at
least 17 white-space-separated fields. -/
theorem readNetDevAux_total (ifs : Option (List IfName)) :
    ∀ (ls : List (List Char)) (acc : Snapshot),
      (∀ l ∈ ls, ':' ∈ l → allowSkip ifs (nameOf l) = false → 17 ≤ (goFields l).length) →
      ∃ m, readNetDevAux ifs ls acc = some m := by
  intro ls
  induction ls with
  | nil =>
    intro acc _
    exact ⟨acc, rfl⟩
  | cons l₀ ls ih =>
    intro acc hlen
    have hrest : ∀ l ∈ ls, ':' ∈ l → allowSkip ifs (nameOf l) = false →
        17 ≤ (goFields l).length :=
      fun l hl => hlen l (List.mem_cons_of_mem _ hl)
    have hline : readNetDevLine ifs l₀ ≠ none := by
      by_cases hc : ':' ∈ l₀
      · cases hf : goFields l₀ with
        | nil => exact absurd hf (goFields_ne_nil_of_colon l₀ hc)
        | cons f₀ rest =>
          have hname : nameOf l₀ = goTrimColons f₀ := by
            simp [nameOf, hf]
          by_cases hskip : allowSkip ifs (goTrimColons f₀)
          · simp [readNetDevLine, hc, hf, hskip]
          · rw [Bool.not_eq_true] at hskip
            have h17 : 17 ≤ (goFields l₀).length :=
              hlen l₀ (List.mem_cons_self _ _) hc (by rw [hname]; exact hskip)
            have h16 : 16 ≤ rest.length := by
              rw [hf] at h17
              simp only [List.length_cons] at h17
              omega
            simp [readNetDevLine, hc, hf, hskip, h16]
      · simp [readNetDevLine, hc]
    cases hl : readNetDevLine ifs l₀ with
    | none => exact absurd hl hline
    | some o =>
      cases o with
      | none =>
        obtain ⟨m, hm⟩ := ih acc hrest
        refine ⟨m, ?_⟩
        simp only [readNetDevAux, hl]
        exact hm
      | some kv =>
        obtain ⟨k₁, v₁⟩ := kv
        obtain ⟨m, hm⟩ := ih (insertSnap acc k₁ v₁) hrest
        refine ⟨m, ?_⟩
        simp only [readNetDevAux, hl]
        exact hm

/-! ## Fixtures for the reader claims -/

/-- The spec's example counter line. -/
def ethLine : List Char := "eth0: 100 2 0 0 0 0 0 0 200 3 0 0 0 0 0 0".toList

/-- The snapshot entry `ethLine` parses to. -/
def ethSnap : Snapshot :=
  [(['e', 't', 'h', '0'],
    { Name := ['e', 't', 'h', '0'],
      Transmit := { zeroInfo with Bytes := 200, Packets := 3 },
      Receive := { zeroInfo with Bytes := 100, Packets := 2 } })]

/-- A header-style line without the delimiter. -/
def headerLine : List Char := "Inter Receive Transmit".toList

/-- An eligible line with fewer than 17 fields. -/
def shortLine : List Char := "eth0:".toList

/-- An eligible line whose first counter field is not numeric. -/
def badFieldLine : List Char := "eth0: abc 2 0 0 0 0 0 0 200 3 0 0 0 0 0 0".toList

/-- C5: a well-formed counter line (delimiter present, first field the
name, at least 16 further fields) parses positionally: fields 1–8 to the
receive record and fields 9–16 to the transmit record, in the fixed order
of the source. -/
theorem c5_positional_field_mapping (line : List Char)
    (nm t₁ t₂ t₃ t₄ t₅ t₆ t₇ t₈ t₉ t₁₀ t₁₁ t₁₂ t₁₃ t₁₄ t₁₅ t₁₆ : List Char)
    (rest : List (List Char))
    (helig : ':' ∈ line)
    (hfields : goFields line = nm :: t₁ :: t₂ :: t₃ :: t₄ :: t₅ :: t₆ :: t₇ :: t₈ ::
      t₉ :: t₁₀ :: t₁₁ :: t₁₂ :: t₁₃ :: t₁₄ :: t₁₅ :: t₁₆ :: rest) :
    readNetDevLine none line = some (some (goTrimColons nm,
      { Name := goTrimColons nm
        Transmit := { Bytes := goInt64 t₉, Packets := goInt64 t₁₀, Errs := goInt64 t₁₁,
                      Drop := goInt64 t₁₂, FIFO := goInt64 t₁₃, Frame := 0,
                      Compressed := goInt64 t₁₆, Multicast := 0,
                      Colls := goInt64 t₁₄, Carrier := goInt64 t₁₅ }
        Receive := { Bytes := goInt64 t₁, Packets := goInt64 t₂, Errs := goInt64 t₃,
                     Drop := goInt64 t₄, FIFO := goInt64 t₅, Frame := goInt64 t₆,
                     Compressed := goInt64 t₇, Multicast := goInt64 t₈,
                     Colls := 0, Carrier := 0 } })) := by
  have h16 : 16 ≤ (t₁ :: t₂ :: t₃ :: t₄ :: t₅ :: t₆ :: t₇ :: t₈ ::
      t₉ :: t₁₀ :: t₁₁ :: t₁₂ :: t₁₃ :: t₁₄ :: t₁₅ :: t₁₆ :: rest).length := by
    simp only [List.length_cons]
    omega
  have hskip : allowSkip none (goTrimColons nm) = false := rfl
  simp only [readNetDevLine, if_pos helig, hfields, hskip, Bool.false_eq_true, if_false,
    dif_pos h16]
  rfl

/-- C5 witness: the spec's example line yields receive bytes 100, receive
packets 2, transmit bytes 200, transmit packets 3, all other fields 0. -/
theorem c5_positional_field_mapping_witness :
    readNetDevLine none ethLine = some (some (['e', 't', 'h', '0'],
      { Name := ['e', 't', 'h', '0'],
        Transmit := { zeroInfo with Bytes := 200, Packets := 3 },
        Receive := { zeroInfo with Bytes := 100, Packets := 2 } })) :=
  (c5_positional_field_mapping ethLine ("eth0:".toList)
    ("100".toList) ("2".toList) ("0".toList) ("0".toList) ("0".toList) ("0".toList)
    ("0".toList) ("0".toList)
    ("200".toList) ("3".toList) ("0".toList) ("0".toList) ("0".toList) ("0".toList)
    ("0".toList) ("0".toList) []
    (by decide) (by decide)).trans (by decide)

/-- C6 amended: on a successful read, the snapshot's keys are exactly the
names of eligible lines that pass the allow-list test of the source: every
name when the allow-list is absent (nil), and only the members of the
allow-list when it is present — including the present empty allow-list,
which admits nothing. -/
theorem c6_allowlist_filtering (ifs : Option (List IfName)) (lines : List (List Char))
    (m : Snapshot) (k : IfName) (h : readNetDev ifs lines = some m) :
    k ∈ snapKeys m ↔
      ∃ l ∈ lines, ':' ∈ l ∧ nameOf l = k ∧ ∀ L, ifs = some L → k ∈ L := by
  have hskip_iff : allowSkip ifs k = false ↔ ∀ L, ifs = some L → k ∈ L := by
    cases ifs with
    | none => simp [allowSkip]
    | some L => simp [allowSkip]
  rw [readNetDevAux_keys ifs lines [] m k h]
  simp only [snapKeys_nil, List.not_mem_nil, false_or]
  constructor
  · rintro ⟨l, hl, v, hv⟩
    have hok := readNetDevAux_line_ok ifs lines [] m h l hl
    obtain ⟨h1, h2, h3⟩ := (readNetDevLine_entry_iff ifs l k hok).mp ⟨v, hv⟩
    exact ⟨l, hl, h1, h2, hskip_iff.mp h3⟩
  · rintro ⟨l, hl, h1, h2, h3⟩
    have hok := readNetDevAux_line_ok ifs lines [] m h l hl
    obtain ⟨v, hv⟩ := (readNetDevLine_entry_iff ifs l k hok).mpr ⟨h1, h2, hskip_iff.mpr h3⟩
    exact ⟨l, hl, v, hv⟩

/-- C6 counterexample: with a present-but-empty allow-list the read
succeeds with an empty snapshot, although `eth0` appears in an eligible
line — the claim's "empty allow-list means all interfaces" fails (only a
nil, i.e. absent, allow-list means all). -/
theorem c6_empty_allowlist_counterexample :
    readNetDev (some []) [ethLine] = some [] ∧
      ':' ∈ ethLine ∧ nameOf ethLine = ['e', 't', 'h', '0'] ∧
      ['e', 't', 'h', '0'] ∉ snapKeys ([] : Snapshot) :=
  ⟨by decide, by decide, by decide, by decide⟩

/-- C6 witness: a singleton allow-list containing `eth0` on the example
line: the key-set equivalence at `k = eth0`. -/
theorem c6_allowlist_filtering_witness :
    ['e', 't', 'h', '0'] ∈ snapKeys ethSnap ↔
      ∃ l ∈ [ethLine], ':' ∈ l ∧ nameOf l = ['e', 't', 'h', '0'] ∧
        ∀ L, (some [['e', 't', 'h', '0']] : Option (List IfName)) = some L →
          ['e', 't', 'h', '0'] ∈ L :=
  c6_allowlist_filtering (some [['e', 't', 'h', '0']]) [ethLine] ethSnap
    ['e', 't', 'h', '0'] (by decide)

/-- C7 amended: when every eligible line that passes the allow-list has at
least 17 white-space-separated fields, the read completes with a Snapshot
(malformed numeric fields are coerced to zero by `goInt64` and never abort
it); an eligible line with fewer fields panics instead. -/
theorem c7_forgiving_parse_completes (ifs : Option (List IfName)) (lines : List (List Char))
    (hlen : ∀ l ∈ lines, ':' ∈ l → allowSkip ifs (nameOf l) = false →
      17 ≤ (goFields l).length) :
    ∃ m, readNetDev ifs lines = some m :=
  readNetDevAux_total ifs lines [] hlen

/-- C7 counterexample: an eligible line with only the name field makes the
read panic (`fields[1]` out of range) instead of returning a Snapshot. -/
theorem c7_short_line_panics : readNetDev none [shortLine] = none := by decide

/-- C7 witness: a line whose first counter field is the non-numeric `abc`
still yields a Snapshot (the field parses to zero). -/
theorem c7_forgiving_parse_completes_witness :
    ∃ m, readNetDev none [badFieldLine] = some m :=
  c7_forgiving_parse_completes none [badFieldLine] (by decide)

/-- C8: every key of a successful read's snapshot is the trimmed first
field of some line containing the delimiter; delimiter-free (header) lines
contribute no entry. -/
theorem c8_header_lines_skipped (ifs : Option (List IfName)) (lines : List (List Char))
    (m : Snapshot) (k : IfName) (h : readNetDev ifs lines = some m)
    (hk : k ∈ snapKeys m) :
    ∃ l ∈ lines, ':' ∈ l ∧ nameOf l = k := by
  rw [readNetDevAux_keys ifs lines [] m k h] at hk
  rcases hk with hk | ⟨l, hl, v, hv⟩
  · simp [snapKeys_nil] at hk
  · have hok := readNetDevAux_line_ok ifs lines [] m h l hl
    obtain ⟨h1, h2, -⟩ := (readNetDevLine_entry_iff ifs l k hok).mp ⟨v, hv⟩
    exact ⟨l, hl, h1, h2⟩

/-- C8 witness: a source of one header line and one counter line; the only
key `eth0` comes from the delimiter line. -/
theorem c8_header_lines_skipped_witness :
    ∃ l ∈ [headerLine, ethLine], ':' ∈ l ∧ nameOf l = ['e', 't', 'h', '0'] :=
  c8_header_lines_skipped none [headerLine, ethLine] ethSnap ['e', 't', 'h', '0']
    (by decide) (by decide)
